import Mathlib

/-
Verification of the playlist / playback-order controller of the
mp3_player_custom repository.

The repository contains several near-duplicate PyQt player variants.  The
logical core under verification is:

  * the full variant, src/sai_mp3_player_full.py (class MainWindow):
    fields tracks, visible_indices, play_order, play_pos, history,
    repeat_one, repeat_all, shuffle; methods _rebuild_play_order,
    _current_track_index, _load_current_and_play, play_next, play_prev,
    _play_by_track_index, _apply_filter, _add_paths, save_playlist,
    load_playlist;
  * the autoplay variant,
    src/sai_mp3_player_slick_autoplay_timer_voice_select_no_underscore.py,
    whose play_next checks repeat_one before pushing history and whose
    play_prev falls through to the decrement when a popped history entry
    is no longer in the play order;
  * the slick variant, src/sai_mp3_player_slick.py (fields tracks, order,
    pos; methods next, prev, _add), which has no history and no duplicate
    check.

Python integers are modelled as Int, Python lists as List, Python strings
as String (or List Char where character-level operations matter), and the
calls into the external engine as an explicit Option EngineEvent result.
random.shuffle is modelled by the Fisher-Yates swap loop of CPython's
random.shuffle, parameterised by a stream g : Nat -> Nat of random draws
(the draw for loop index i is taken modulo i+1, the bound randbelow(i+1)
guarantees).
-/

/-- One track record (dataclass Track of the full variant: path, title,
artist, album, duration_ms). -/
structure Track where
  path : String
  title : String
  artist : String
  album : String
  duration_ms : Int
deriving DecidableEq

/-- A command issued to the external playback engine by a sequencer
operation: load-and-play a registry index, or stop. -/
inductive EngineEvent where
  | load_play (idx : Nat)
  | stop
deriving DecidableEq

/-- The sequencer-relevant state of MainWindow in the full and autoplay
variants: tracks, visible_indices, play_order, play_pos, history and the
three mode flags. -/
structure PlayerState where
  tracks : List Track
  visible_indices : List Nat
  play_order : List Nat
  play_pos : Int
  history : List Nat
  repeat_one : Bool
  repeat_all : Bool
  shuffle : Bool
deriving DecidableEq

/-- One swap step `x[i], x[j] = x[j], x[i]` of CPython's random.shuffle,
as a total list operation (identity when an index is out of range; in the
shuffle loop both indices are always in range). -/
def listSwap (l : List Nat) (i j : Nat) : List Nat :=
  if i < l.length ∧ j < l.length then
    (l.set i (l.getD j 0)).set j (l.getD i 0)
  else l

/-- The loop `for i in reversed(range(1, len(x))): j = randbelow(i+1);
swap x[i], x[j]` of CPython's random.shuffle.  The counter argument is the
current loop index i; the draw for index i is `g i % (i+1)`. -/
def fyLoop (g : Nat → Nat) : Nat → List Nat → List Nat
  | 0, l => l
  | i + 1, l => fyLoop g i (listSwap l (i + 1) (g (i + 1) % (i + 2)))

/-- random.shuffle(base) as called by _rebuild_play_order, parameterised
by the stream of random draws. -/
def pyShuffle (g : Nat → Nat) (l : List Nat) : List Nat :=
  fyLoop g (l.length - 1) l

/-- MainWindow._current_track_index of the full and autoplay variants:
-1 when the cursor is outside [0, len(play_order)), otherwise
play_order[play_pos]. -/
def currentTrackIndex (s : PlayerState) : Int :=
  if s.play_pos < 0 ∨ (s.play_order.length : Int) ≤ s.play_pos then -1
  else ((s.play_order.getD s.play_pos.toNat 0 : Nat) : Int)

/-- MainWindow._load_current_and_play: resolves the current track; when it
is -1 the method returns without touching the engine (modelled as none),
otherwise it loads and plays that registry index. -/
def loadCurrentAndPlay (s : PlayerState) : Option EngineEvent :=
  let idx := currentTrackIndex s
  if idx = -1 then none else some (EngineEvent.load_play idx.toNat)

/-- MainWindow._rebuild_play_order(keep_current) of the full and autoplay
variants: record the current registry index, copy visible_indices, shuffle
the copy when shuffle mode is on, install it as play_order, then place the
cursor: -1 when the new order is empty, the new offset of the previous
current index when keep_current holds and that index is still present,
else 0. -/
def rebuild (g : Nat → Nat) (keep : Bool) (s : PlayerState) : PlayerState :=
  let current := currentTrackIndex s
  let base := if s.shuffle then pyShuffle g s.visible_indices else s.visible_indices
  if base = [] then
    { s with play_order := base, play_pos := -1 }
  else if keep ∧ current ≠ -1 ∧ current.toNat ∈ base then
    { s with play_order := base, play_pos := (base.indexOf current.toNat : Int) }
  else
    { s with play_order := base, play_pos := 0 }

/-- MainWindow.play_next of the full variant: bail out on an empty play
order; push the current index (when valid) onto history; under repeat_one
replay the current track; otherwise advance the cursor, wrapping to 0
under repeat_all and stopping the engine (cursor untouched) otherwise. -/
def play_next (s : PlayerState) : PlayerState × Option EngineEvent :=
  if s.play_order = [] then (s, none)
  else
    let cur := currentTrackIndex s
    let s1 := if cur ≠ -1 then { s with history := s.history ++ [cur.toNat] } else s
    if s1.repeat_one then (s1, loadCurrentAndPlay s1)
    else
      let nxt := s1.play_pos + 1
      if (s1.play_order.length : Int) ≤ nxt then
        if s1.repeat_all then
          let s2 := { s1 with play_pos := 0 }
          (s2, loadCurrentAndPlay s2)
        else
          (s1, some EngineEvent.stop)
      else
        let s2 := { s1 with play_pos := nxt }
        (s2, loadCurrentAndPlay s2)

/-- MainWindow._play_by_track_index(idx) of the full variant: ignore an
idx outside the registry; move the cursor to idx's offset in play_order,
rebuilding without keep_current first when idx is filtered out of the
current order; then load and play the current track. -/
def play_by_track_index (g : Nat → Nat) (idx : Int) (s : PlayerState) :
    PlayerState × Option EngineEvent :=
  if idx < 0 ∨ (s.tracks.length : Int) ≤ idx then (s, none)
  else
    let s1 :=
      if idx.toNat ∈ s.play_order then
        { s with play_pos := (s.play_order.indexOf idx.toNat : Int) }
      else
        let r := rebuild g false s
        if idx.toNat ∈ r.play_order then
          { r with play_pos := (r.play_order.indexOf idx.toNat : Int) }
        else r
    (s1, loadCurrentAndPlay s1)

/-- MainWindow.play_prev of the full variant: bail out on an empty play
order; when history is non-empty pop its top and jump to that registry
index via _play_by_track_index; otherwise decrement the cursor, wrapping
to len(play_order)-1 under repeat_all and clamping to 0 otherwise. -/
def play_prev (g : Nat → Nat) (s : PlayerState) : PlayerState × Option EngineEvent :=
  if s.play_order = [] then (s, none)
  else
    match s.history.getLast? with
    | some idx =>
        play_by_track_index g (idx : Int) { s with history := s.history.dropLast }
    | none =>
        let prv := s.play_pos - 1
        let prv2 := if prv < 0 then
            (if s.repeat_all then (s.play_order.length : Int) - 1 else 0)
          else prv
        let s2 := { s with play_pos := prv2 }
        (s2, loadCurrentAndPlay s2)

/-- play_next of the autoplay variant
(sai_mp3_player_slick_autoplay_timer_voice_select_no_underscore.py): the
repeat_one check comes first, so the history push happens only in the
non-repeat_one branch. -/
def nuPlayNext (s : PlayerState) : PlayerState × Option EngineEvent :=
  if s.play_order = [] then (s, none)
  else if s.repeat_one then (s, loadCurrentAndPlay s)
  else
    let cur := currentTrackIndex s
    let s1 := if cur ≠ -1 then { s with history := s.history ++ [cur.toNat] } else s
    let nxt := s1.play_pos + 1
    if (s1.play_order.length : Int) ≤ nxt then
      if s1.repeat_all then
        let s2 := { s1 with play_pos := 0 }
        (s2, loadCurrentAndPlay s2)
      else
        (s1, some EngineEvent.stop)
    else
      let s2 := { s1 with play_pos := nxt }
      (s2, loadCurrentAndPlay s2)

/-- play_prev of the autoplay variant: pop the history top; when it is
still in the play order jump to it, otherwise (and when history is empty)
fall through to the decrement with wrap-or-clamp. -/
def nuPlayPrev (s : PlayerState) : PlayerState × Option EngineEvent :=
  if s.play_order = [] then (s, none)
  else
    let dec : PlayerState → PlayerState × Option EngineEvent := fun t =>
      let prv := t.play_pos - 1
      let prv2 := if prv < 0 then
          (if t.repeat_all then (t.play_order.length : Int) - 1 else 0)
        else prv
      let t2 := { t with play_pos := prv2 }
      (t2, loadCurrentAndPlay t2)
    match s.history.getLast? with
    | some idx =>
        let s1 := { s with history := s.history.dropLast }
        if idx ∈ s1.play_order then
          let s2 := { s1 with play_pos := (s1.play_order.indexOf idx : Int) }
          (s2, loadCurrentAndPlay s2)
        else dec s1
    | none => dec s

/-- The cursor bounds invariant of the spec:
-1 <= play_pos < len(play_order), and play_pos = -1 when play_order is
empty (stated via the length so that all three clauses are arithmetic). -/
def CursorInv (s : PlayerState) : Prop :=
  -1 ≤ s.play_pos ∧ s.play_pos < (s.play_order.length : Int) ∧
    (s.play_order.length = 0 → s.play_pos = -1)

instance (s : PlayerState) : Decidable (CursorInv s) := by
  unfold CursorInv; infer_instance

/-- A sequencer operation, as listed by the claim: rebuild (with its
keep_current flag and its stream of random draws), play_next, play_prev,
and jump-to-a-registry-index (_play_by_track_index). -/
inductive SeqOp where
  | rebuildOp (g : Nat → Nat) (keep : Bool)
  | nextOp
  | prevOp (g : Nat → Nat)
  | jumpOp (g : Nat → Nat) (idx : Int)

/-- Apply one sequencer operation to the full-variant state (engine
commands discarded). -/
def applySeqOp (s : PlayerState) : SeqOp → PlayerState
  | SeqOp.rebuildOp g keep => rebuild g keep s
  | SeqOp.nextOp => (play_next s).1
  | SeqOp.prevOp g => (play_prev g s).1
  | SeqOp.jumpOp g idx => (play_by_track_index g idx s).1

/-- Run a sequence of sequencer operations. -/
def runSeq (s : PlayerState) (ops : List SeqOp) : PlayerState :=
  ops.foldl applySeqOp s

/-- The startup state of MainWindow.__init__ in the full variant: empty
lists, cursor -1, repeat_all on. -/
def initState : PlayerState :=
  ⟨[], [], [], -1, [], false, true, false⟩

/-- The sequencer-relevant state of the slick variant MainWindow
(src/sai_mp3_player_slick.py): tracks, order, pos and the mode flags.  It
has no history stack and no separate visible-indices list. -/
structure SlickState where
  tracks : List Track
  order : List Nat
  pos : Int
  shuffle : Bool
  repeat_all : Bool
  repeat_one : Bool
deriving DecidableEq

/-- Python list indexing l[i] with negative-index wraparound; none models
an IndexError. -/
def pyListGet (l : List Nat) (i : Int) : Option Nat :=
  if 0 ≤ i ∧ i < (l.length : Int) then some (l.getD i.toNat 0)
  else if -(l.length : Int) ≤ i ∧ i < 0 then some (l.getD (l.length - (-i).toNat) 0)
  else none

/-- MainWindow._play of the slick variant: load and play order[pos]. -/
def slickPlay (s : SlickState) : Option EngineEvent :=
  (pyListGet s.order s.pos).map EngineEvent.load_play

/-- MainWindow.next of the slick variant: bail out on empty order; under
repeat_one replay; otherwise increment pos first, then, when pos has run
off the end, return (pos left untouched at len(order)) unless repeat_all
wraps it to 0. -/
def slickNext (s : SlickState) : SlickState × Option EngineEvent :=
  if s.order = [] then (s, none)
  else if s.repeat_one then (s, slickPlay s)
  else
    let p1 := s.pos + 1
    if (s.order.length : Int) ≤ p1 then
      if s.repeat_all = false then ({ s with pos := p1 }, none)
      else
        let s2 := { s with pos := 0 }
        (s2, slickPlay s2)
    else
      let s2 := { s with pos := p1 }
      (s2, slickPlay s2)

/-- MainWindow.prev of the slick variant: pos = max(0, pos - 1), with no
repeat_all wrap. -/
def slickPrev (s : SlickState) : SlickState × Option EngineEvent :=
  if s.order = [] then (s, none)
  else
    let s2 := { s with pos := max 0 (s.pos - 1) }
    (s2, slickPlay s2)

/-- A one-track slick state with repeat_all and repeat_one off and the
cursor at the last offset. -/
def slickC1 : SlickState := ⟨[⟨"a.mp3", "a", "", "", -1⟩], [0], 0, false, false, false⟩

/-- A one-track full-variant state with both repeat flags off and the
cursor on the last offset. -/
def stopW : PlayerState := ⟨[⟨"a.mp3", "a", "", "", -1⟩], [0], [0], 0, [], false, false, false⟩

/-- A two-track slick state with repeat flags off and the cursor on the
last offset. -/
def slickC4 : SlickState :=
  ⟨[⟨"a.mp3", "a", "", "", -1⟩, ⟨"b.mp3", "b", "", "", -1⟩], [0, 1], 1, false, false, false⟩

/-- A two-track full-variant state with repeat_all on, empty history and
the cursor at offset 0. -/
def prevW : PlayerState :=
  ⟨[⟨"a.mp3", "a", "", "", -1⟩, ⟨"b.mp3", "b", "", "", -1⟩], [0, 1], [0, 1], 0, [],
    false, true, false⟩

/-- A two-track slick state with repeat_all on and the cursor at
offset 0. -/
def slickC5 : SlickState :=
  ⟨[⟨"a.mp3", "a", "", "", -1⟩, ⟨"b.mp3", "b", "", "", -1⟩], [0, 1], 0, false, true, false⟩

/-- A one-track full-variant state with repeat_one on, a valid cursor and
empty history. -/
def c3W : PlayerState := ⟨[⟨"a.mp3", "a", "", "", -1⟩], [0], [0], 0, [], true, true, false⟩

/-- A one-track full-variant state with repeat_one on, a valid cursor and
empty history, used to exhibit the history push. -/
def c3C : PlayerState := ⟨[⟨"b.mp3", "b", "", "", -1⟩], [0], [0], 0, [], true, false, false⟩

/-- The whitespace characters removed by Python str.strip() (the ASCII
ones: space, tab, newline, carriage return, vertical tab, form feed). -/
def pyIsSpace (c : Char) : Bool :=
  c == ' ' || c == '\t' || c == '\n' || c == '\r' || c == Char.ofNat 11 || c == Char.ofNat 12

/-- Python str.strip(): drop leading and trailing whitespace. -/
def pyStrip (l : List Char) : List Char :=
  ((l.dropWhile pyIsSpace).reverse.dropWhile pyIsSpace).reverse

/-- The search haystack f"{t.title} {t.artist} {t.album}".lower() built by
_apply_filter for one track. -/
def filterHay (t : Track) : List Char :=
  (t.title.toList ++ [' '] ++ t.artist.toList ++ [' '] ++ t.album.toList).map Char.toLower

/-- Python substring membership `q in hay`. -/
def isSubOf : List Char → List Char → Bool
  | [], _ => true
  | _ :: _, [] => false
  | qh :: qt, c :: rest => List.isPrefixOf (qh :: qt) (c :: rest) || isSubOf (qh :: qt) rest

/-- MainWindow._apply_filter of the full and autoplay variants, restricted
to the computation of visible_indices: strip and lowercase the query, then
keep, in registry order, every index whose haystack contains the query
(an empty query keeps everything). -/
def applyFilter (query : List Char) (tracks : List Track) : List Nat :=
  let q := (pyStrip query).map Char.toLower
  tracks.enum.filterMap fun it =>
    if q = [] ∨ isSubOf q (filterHay it.2) then some it.1 else none

/-- A two-track state with shuffle on and the cursor at offset 0 of
play order [0, 1]. -/
def c8C : PlayerState :=
  ⟨[⟨"a.mp3", "a", "", "", -1⟩, ⟨"b.mp3", "b", "", "", -1⟩], [0, 1], [0, 1], 0, [],
    false, true, true⟩

/-- Building a Track from a path and the metadata fields (title, artist,
album, duration_ms) that _read_metadata extracted: the stored path field
is exactly the imported path. -/
def mkTrack (p : String) (m : String × String × String × Int) : Track :=
  ⟨p, m.1, m.2.1, m.2.2.1, m.2.2.2⟩

/-- MainWindow._add_paths of the full variant: for each path in order,
skip it when it does not exist on disk (ex p = false) or when some
registry entry already stores an equal path (the code compares
Path(t.path) == p, i.e. normalized-path equality; stored paths are
str(p) of the compared Path objects, so this is equality of the stored
values); otherwise read metadata (md, total - _read_metadata never
raises) and append. -/
def addPaths (ex : String → Bool) (md : String → String × String × String × Int) :
    List Track → List String → List Track
  | tracks, [] => tracks
  | tracks, p :: rest =>
    if ex p = false then addPaths ex md tracks rest
    else if tracks.any fun t => t.path == p then addPaths ex md tracks rest
    else addPaths ex md (tracks ++ [mkTrack p (md p)]) rest

/-- The all-paths-exist filesystem. -/
def exTrue : String → Bool := fun _ => true

/-- MainWindow._add of the slick variant: the try block either appends a
track built from the path and the metadata read, or raises midway
(md returning none) and appends nothing.  There is no duplicate check. -/
def slickAdd (md : String → Option (String × String × String × Int))
    (tracks : List Track) (p : String) : List Track :=
  match md p with
  | none => tracks
  | some m => tracks ++ [mkTrack p m]

/-- A metadata reader that always succeeds. -/
def mdOk : String → Option (String × String × String × Int) :=
  fun _ => some ("t", "", "", -1)

/-- One track object of the saved JSON array, as read back by
load_playlist: every field is read with dict.get and a default, so each
field is optional. -/
structure TrackRecord where
  path : Option String
  title : Option String
  artist : Option String
  album : Option String
  duration_ms : Option Int
deriving DecidableEq

/-- The saved playlist JSON document: version tag, save timestamp, and
the flat array of track records. -/
structure Payload where
  version : Int
  saved_at : Int
  tracks : List TrackRecord
deriving DecidableEq

/-- asdict(t): save_playlist serialises every field of a track. -/
def saveRecord (t : Track) : TrackRecord :=
  ⟨some t.path, some t.title, some t.artist, some t.album, some t.duration_ms⟩

/-- The payload save_playlist writes: version 1, the timestamp, and the
registry mapped to records order-preserving. -/
def savePayload (savedAt : Int) (tracks : List Track) : Payload :=
  ⟨1, savedAt, tracks.map saveRecord⟩

/-- MainWindow.save_playlist: refuses an empty registry (the Empty
dialog), otherwise writes the payload. -/
def savePlaylist (savedAt : Int) (tracks : List Track) : Option Payload :=
  if tracks = [] then none else some (savePayload savedAt tracks)

/-- One step of load_playlist's loop: `p = t.get("path", "")`; skip when
p is empty or when the path does not exist; otherwise build the Track
with the defaulted fields. -/
def loadRecord (ex : String → Bool) (r : TrackRecord) : Option Track :=
  let p := r.path.getD ""
  if p = "" then none
  else if ex p = false then none
  else some ⟨p, r.title.getD "", r.artist.getD "", r.album.getD "", r.duration_ms.getD (-1)⟩

/-- The list of tracks load_playlist accumulates from a payload. -/
def loadTracks (ex : String → Bool) (pl : Payload) : List Track :=
  pl.tracks.filterMap (loadRecord ex)

/-- MainWindow.load_playlist's effect on the registry: when nothing
survives the filtering the registry is left unchanged (the
Nothing-loaded dialog); otherwise the loaded list replaces it. -/
def loadPlaylist (ex : String → Bool) (pl : Payload) (current : List Track) : List Track :=
  let loaded := loadTracks ex pl
  if loaded = [] then current else loaded

/-- A track whose stored path is the empty string. -/
def emptyPathTrack : Track := ⟨"", "x", "", "", -1⟩

/-- Every swap step preserves element counts. -/
theorem count_listSwap (l : List Nat) (i j a : Nat) :
    (listSwap l i j).count a = l.count a := by
  unfold listSwap
  split
  · rename_i h
    obtain ⟨hi, hj⟩ := h
    have hb1 : (if l[i] = a then 1 else 0) ≤ l.count a := by
      split
      · rename_i he
        exact List.count_pos_iff.mpr (he ▸ List.getElem_mem hi)
      · exact Nat.zero_le _
    have hj2 : j < (l.set i (l.getD j 0)).length := by
      simpa using hj
    have hset : (l.set i (l.getD j 0))[j] = if i = j then l.getD j 0 else l[j] :=
      List.getElem_set hj2
    rw [List.count_set _ _ _ _ hj2, List.count_set _ _ _ _ hi, hset,
      List.getD_eq_getElem l 0 hj, List.getD_eq_getElem l 0 hi]
    simp only [beq_iff_eq, ite_self]
    split_ifs at hb1 ⊢ <;> omega
  · rfl

/-- Every swap step is a permutation. -/
theorem listSwap_perm (l : List Nat) (i j : Nat) : (listSwap l i j).Perm l :=
  List.perm_iff_count.mpr fun a => count_listSwap l i j a

/-- The whole Fisher-Yates loop is a permutation. -/
theorem fyLoop_perm (g : Nat → Nat) : ∀ (n : Nat) (l : List Nat), (fyLoop g n l).Perm l := by
  intro n
  induction n with
  | zero => intro l; exact List.Perm.refl l
  | succ i ih =>
      intro l
      exact (ih (listSwap l (i + 1) (g (i + 1) % (i + 2)))).trans
        (listSwap_perm l (i + 1) (g (i + 1) % (i + 2)))

/-- random.shuffle, as modelled, permutes its input. -/
theorem pyShuffle_perm (g : Nat → Nat) (l : List Nat) : (pyShuffle g l).Perm l :=
  fyLoop_perm g (l.length - 1) l

/-- The play order installed by _rebuild_play_order is the (possibly
shuffled) copy of visible_indices, in every branch. -/
theorem rebuild_play_order_eq (g : Nat → Nat) (keep : Bool) (s : PlayerState) :
    (rebuild g keep s).play_order =
      if s.shuffle then pyShuffle g s.visible_indices else s.visible_indices := by
  unfold rebuild
  dsimp only
  split
  · split
    · rfl
    · split <;> rfl
  · split
    · rfl
    · split <;> rfl

/-- Core of the play-order content invariant: the play order installed by
_rebuild_play_order is a permutation of visible_indices. -/
theorem rebuild_play_order_perm_core (g : Nat → Nat) (keep : Bool) (s : PlayerState) :
    (rebuild g keep s).play_order.Perm s.visible_indices := by
  rw [rebuild_play_order_eq]
  split
  · exact pyShuffle_perm g s.visible_indices
  · exact List.Perm.refl _

/-- C2: Play-Order content invariant.  After _rebuild_play_order, for any
filter view (visible_indices), any keep_current flag and shuffle on or
off, play_order is a permutation of visible_indices: the same multiset of
registry indices, nothing lost, nothing duplicated. -/
theorem rebuild_play_order_perm (g : Nat → Nat) (keep : Bool) (s : PlayerState) :
    (rebuild g keep s).play_order.Perm s.visible_indices :=
  rebuild_play_order_perm_core g keep s

/-- _rebuild_play_order establishes the cursor invariant from any state,
even one that violated it. -/
theorem rebuild_cursor_inv (g : Nat → Nat) (keep : Bool) (s : PlayerState) :
    CursorInv (rebuild g keep s) := by
  unfold rebuild CursorInv
  dsimp only
  set b := if s.shuffle then pyShuffle g s.visible_indices else s.visible_indices with hb
  split
  · refine ⟨?_, ?_, ?_⟩ <;> dsimp only <;> omega
  · rename_i hbase
    have hlen : 0 < b.length := List.length_pos.mpr hbase
    split
    · rename_i hkeep
      have hidx := List.indexOf_lt_length.mpr hkeep.2.2
      refine ⟨?_, ?_, ?_⟩ <;> dsimp only <;> omega
    · refine ⟨?_, ?_, ?_⟩ <;> dsimp only <;> omega

/-- play_next (full variant) preserves the cursor invariant; in
particular the stop branch leaves the cursor clamped in range. -/
theorem play_next_cursor_inv (s : PlayerState) (h : CursorInv s) :
    CursorInv (play_next s).1 := by
  obtain ⟨h1, h2, h3⟩ := h
  unfold play_next
  dsimp only
  split
  · exact ⟨h1, h2, h3⟩
  · rename_i hne
    have hlen : 0 < s.play_order.length := List.length_pos.mpr hne
    unfold CursorInv
    split_ifs <;> refine ⟨?_, ?_, ?_⟩ <;> dsimp only at * <;> omega

/-- _play_by_track_index (full variant) preserves the cursor invariant. -/
theorem play_by_track_index_cursor_inv (g : Nat → Nat) (idx : Int) (s : PlayerState)
    (h : CursorInv s) : CursorInv (play_by_track_index g idx s).1 := by
  unfold play_by_track_index
  dsimp only
  split
  · exact h
  · split
    · rename_i hmem
      have hidx := List.indexOf_lt_length.mpr hmem
      refine ⟨?_, ?_, ?_⟩ <;> dsimp only <;> omega
    · split
      · rename_i hmem
        have hidx := List.indexOf_lt_length.mpr hmem
        refine ⟨?_, ?_, ?_⟩ <;> dsimp only <;> omega
      · exact rebuild_cursor_inv g false s

/-- play_prev (full variant) preserves the cursor invariant. -/
theorem play_prev_cursor_inv (g : Nat → Nat) (s : PlayerState) (h : CursorInv s) :
    CursorInv (play_prev g s).1 := by
  obtain ⟨h1, h2, h3⟩ := h
  unfold play_prev
  dsimp only
  split
  · exact ⟨h1, h2, h3⟩
  · rename_i hne
    have hlen : 0 < s.play_order.length := List.length_pos.mpr hne
    cases hh : s.history.getLast? with
    | some idx =>
        exact play_by_track_index_cursor_inv g (idx : Int)
          { s with history := s.history.dropLast } ⟨h1, h2, h3⟩
    | none =>
        unfold CursorInv
        split_ifs <;> refine ⟨?_, ?_, ?_⟩ <;> dsimp only <;> omega

/-- C1 (amended): for every sequence of full-variant sequencer operations
(_rebuild_play_order, play_next, play_prev, _play_by_track_index) applied
to a state satisfying the cursor bounds invariant, the invariant still
holds afterwards: -1 <= play_pos < len(play_order), with play_pos = -1 on
an empty play order.  (The slick variant violates this: see the
counterexample theorem slickNext_cursor_out_of_range.) -/
theorem runSeq_cursor_inv (ops : List SeqOp) (s : PlayerState) (h : CursorInv s) :
    CursorInv (runSeq s ops) := by
  induction ops generalizing s with
  | nil => exact h
  | cons op rest ih =>
      have hstep : CursorInv (applySeqOp s op) := by
        cases op with
        | rebuildOp g keep => exact rebuild_cursor_inv g keep s
        | nextOp => exact play_next_cursor_inv s h
        | prevOp g => exact play_prev_cursor_inv g s h
        | jumpOp g idx => exact play_by_track_index_cursor_inv g idx s h
      exact ih (applySeqOp s op) hstep

/-- Witness for runSeq_cursor_inv at the startup state and a concrete
operation sequence. -/
theorem runSeq_cursor_inv_witness :
    CursorInv initState ∧
      CursorInv (runSeq initState
        [SeqOp.rebuildOp (fun _ => 0) true, SeqOp.nextOp,
         SeqOp.prevOp (fun _ => 0), SeqOp.jumpOp (fun _ => 0) 0]) :=
  ⟨by decide, runSeq_cursor_inv
    [SeqOp.rebuildOp (fun _ => 0) true, SeqOp.nextOp,
     SeqOp.prevOp (fun _ => 0), SeqOp.jumpOp (fun _ => 0) 0] initState (by decide)⟩

/-- C1 counterexample: in the slick variant, next at the last offset with
repeat_all off leaves the cursor at len(order) = 1, outside the claimed
range -1 <= pos < len(order). -/
theorem slickNext_cursor_out_of_range :
    (slickNext slickC1).1.pos = 1 ∧ (slickNext slickC1).1.order.length = 1 ∧
      ¬ ((slickNext slickC1).1.pos < ((slickNext slickC1).1.order.length : Int)) := by
  decide

/-- C4 (amended): in the full variant, with repeat_all and repeat_one off
and the cursor on the last offset of a non-empty play order, play_next
stops the engine, issues no further index, and leaves the cursor
unchanged at the last valid offset.  (The slick variant instead leaves
the cursor past the end: see slickNext_stop_moves_cursor.) -/
theorem play_next_stop (s : PlayerState)
    (h1 : s.repeat_all = false) (h2 : s.repeat_one = false)
    (h3 : s.play_order ≠ []) (h4 : s.play_pos = (s.play_order.length : Int) - 1) :
    (play_next s).2 = some EngineEvent.stop ∧ (play_next s).1.play_pos = s.play_pos := by
  have hlen : 0 < s.play_order.length := List.length_pos.mpr h3
  unfold play_next
  dsimp only
  split_ifs <;> (try dsimp only at *) <;>
    first
      | exact ⟨rfl, rfl⟩
      | omega
      | simp_all

/-- Witness for play_next_stop at a concrete state. -/
theorem play_next_stop_witness :
    (play_next stopW).2 = some EngineEvent.stop ∧
      (play_next stopW).1.play_pos = stopW.play_pos :=
  play_next_stop stopW rfl rfl (by decide) (by decide)

/-- C4 counterexample: in the slick variant, under exactly the claimed
conditions (repeat_all off, repeat_one off, cursor at the last offset of
a non-empty order), next issues no further index but moves the cursor to
len(order) = 2 instead of leaving it clamped. -/
theorem slickNext_stop_moves_cursor :
    slickC4.repeat_all = false ∧ slickC4.repeat_one = false ∧
      slickC4.order ≠ [] ∧ slickC4.pos = (slickC4.order.length : Int) - 1 ∧
      (slickNext slickC4).2 = none ∧
      (slickNext slickC4).1.pos ≠ slickC4.pos ∧
      (slickNext slickC4).1.pos = (slickC4.order.length : Int) := by
  decide

/-- C5 (amended): in the full and autoplay variants, with a non-empty
play order and empty history, play_prev decrements the cursor; on
underflow below 0 it wraps to len(play_order)-1 when repeat_all is on and
clamps to 0 otherwise.  (The slick variant never wraps: see
slickPrev_no_wrap.) -/
theorem play_prev_underflow (g : Nat → Nat) (s : PlayerState)
    (h1 : s.play_order ≠ []) (h2 : s.history = []) :
    (play_prev g s).1.play_pos =
        (if s.play_pos - 1 < 0 then
          (if s.repeat_all then (s.play_order.length : Int) - 1 else 0)
        else s.play_pos - 1) ∧
      (nuPlayPrev s).1.play_pos =
        (if s.play_pos - 1 < 0 then
          (if s.repeat_all then (s.play_order.length : Int) - 1 else 0)
        else s.play_pos - 1) := by
  unfold play_prev nuPlayPrev
  dsimp only
  simp only [if_neg h1, h2, List.getLast?_nil]
  constructor <;> first | rfl | trivial

/-- Witness for play_prev_underflow at a concrete state (underflow with
repeat_all on: the cursor wraps to the last offset). -/
theorem play_prev_underflow_witness :
    (play_prev (fun _ => 0) prevW).1.play_pos =
        (if prevW.play_pos - 1 < 0 then
          (if prevW.repeat_all then (prevW.play_order.length : Int) - 1 else 0)
        else prevW.play_pos - 1) ∧
      (nuPlayPrev prevW).1.play_pos =
        (if prevW.play_pos - 1 < 0 then
          (if prevW.repeat_all then (prevW.play_order.length : Int) - 1 else 0)
        else prevW.play_pos - 1) :=
  play_prev_underflow (fun _ => 0) prevW (by decide) rfl

/-- C5 counterexample: in the slick variant, prev from offset 0 with
repeat_all on clamps the cursor to 0 instead of wrapping it to
len(order)-1 = 1 as the claim requires. -/
theorem slickPrev_no_wrap :
    slickC5.order ≠ [] ∧ slickC5.repeat_all = true ∧ slickC5.pos - 1 < 0 ∧
      (slickPrev slickC5).1.pos = 0 ∧ (slickC5.order.length : Int) - 1 = 1 := by
  decide

/-- _current_track_index reads only play_order and play_pos, so it ignores
changes to the other fields. -/
theorem currentTrackIndex_fields (s : PlayerState) (tr : List Track) (vis : List Nat)
    (hist : List Nat) (r1 ra sh : Bool) :
    currentTrackIndex ⟨tr, vis, s.play_order, s.play_pos, hist, r1, ra, sh⟩ =
      currentTrackIndex s := rfl

/-- _load_current_and_play reads only play_order and play_pos, so it
ignores changes to the other fields. -/
theorem loadCurrentAndPlay_fields (s : PlayerState) (tr : List Track) (vis : List Nat)
    (hist : List Nat) (r1 ra sh : Bool) :
    loadCurrentAndPlay ⟨tr, vis, s.play_order, s.play_pos, hist, r1, ra, sh⟩ =
      loadCurrentAndPlay s := rfl

/-- C3 (amended): with repeat_one on and a non-empty play order,
play_next returns exactly the track that was current immediately prior
and leaves the cursor and play order unchanged, in both the full and the
autoplay variant; the autoplay variant leaves history untouched (its
history push sits in the non-repeat_one branch), but the full variant
appends the current index (when valid) to history before its repeat_one
check. -/
theorem play_next_repeat_one (s : PlayerState)
    (h1 : s.repeat_one = true) (h2 : s.play_order ≠ []) :
    (play_next s).1.play_pos = s.play_pos ∧
      (play_next s).1.play_order = s.play_order ∧
      currentTrackIndex (play_next s).1 = currentTrackIndex s ∧
      (play_next s).2 = loadCurrentAndPlay s ∧
      (play_next s).1.history =
        s.history ++ (if currentTrackIndex s ≠ -1 then [(currentTrackIndex s).toNat] else []) ∧
      (nuPlayNext s).1 = s ∧ (nuPlayNext s).2 = loadCurrentAndPlay s := by
  unfold play_next nuPlayNext
  dsimp only
  split_ifs <;> dsimp only at * <;>
    simp_all [currentTrackIndex_fields, loadCurrentAndPlay_fields]

/-- Witness for play_next_repeat_one at a concrete state. -/
theorem play_next_repeat_one_witness :
    (play_next c3W).1.play_pos = c3W.play_pos ∧
      (play_next c3W).1.play_order = c3W.play_order ∧
      currentTrackIndex (play_next c3W).1 = currentTrackIndex c3W ∧
      (play_next c3W).2 = loadCurrentAndPlay c3W ∧
      (play_next c3W).1.history =
        c3W.history ++
          (if currentTrackIndex c3W ≠ -1 then [(currentTrackIndex c3W).toNat] else []) ∧
      (nuPlayNext c3W).1 = c3W ∧ (nuPlayNext c3W).2 = loadCurrentAndPlay c3W :=
  play_next_repeat_one c3W rfl (by decide)

/-- C3 counterexample: in the full variant, play_next pushes the current
index onto history even though repeat_one is on and the play order is
non-empty (the push precedes the repeat_one check), so the claim that
nothing is pushed onto History is false on the full variant. -/
theorem play_next_repeat_one_pushes_history :
    c3C.repeat_one = true ∧ c3C.play_order ≠ [] ∧ c3C.history = [] ∧
      (play_next c3C).1.history = [0] := by
  decide

/-- C9: totality of the current-track lookup.  _current_track_index
returns -1 exactly on the out-of-range guard and otherwise returns the
play_order entry at the cursor (a genuine element of play_order, so the
lookup never reads out of range), and _load_current_and_play issues no
engine command precisely when the lookup is -1 (a no-op instead of a
fault). -/
theorem currentTrackIndex_total (s : PlayerState) :
    (currentTrackIndex s = -1 ∨
      (0 ≤ currentTrackIndex s ∧ (currentTrackIndex s).toNat ∈ s.play_order)) ∧
    ((s.play_pos < 0 ∨ (s.play_order.length : Int) ≤ s.play_pos) →
      currentTrackIndex s = -1) ∧
    (0 ≤ s.play_pos → s.play_pos < (s.play_order.length : Int) →
      currentTrackIndex s = (s.play_order.getD s.play_pos.toNat 0 : Int)) ∧
    (loadCurrentAndPlay s = none ↔ currentTrackIndex s = -1) := by
  unfold loadCurrentAndPlay currentTrackIndex
  dsimp only
  split
  · rename_i h
    exact ⟨Or.inl rfl, fun _ => rfl, fun hp1 hp2 => by omega, by simp⟩
  · rename_i h
    push_neg at h
    obtain ⟨hp1, hp2⟩ := h
    have hlt : s.play_pos.toNat < s.play_order.length := by omega
    have hmem : s.play_order.getD s.play_pos.toNat 0 ∈ s.play_order := by
      rw [List.getD_eq_getElem _ _ hlt]
      exact List.getElem_mem hlt
    have hne : ¬ ((s.play_order.getD s.play_pos.toNat 0 : Int) = -1) := by omega
    refine ⟨Or.inr ⟨by omega, by simpa using hmem⟩, fun hor => by omega,
      fun _ _ => rfl, ?_⟩
    simp [hne]

/-- Witness for currentTrackIndex_total at a concrete state (the inner
implications discharged at an in-range cursor). -/
theorem currentTrackIndex_total_witness :
    currentTrackIndex stopW = (stopW.play_order.getD stopW.play_pos.toNat 0 : Int) ∧
      (currentTrackIndex stopW = -1 ∨
        (0 ≤ currentTrackIndex stopW ∧ (currentTrackIndex stopW).toNat ∈ stopW.play_order)) :=
  ⟨(currentTrackIndex_total stopW).2.2.1 (by decide) (by decide),
    (currentTrackIndex_total stopW).1⟩

/-- Stripping a string of pure whitespace yields the empty string. -/
theorem pyStrip_eq_nil (l : List Char) (h : ∀ c ∈ l, pyIsSpace c = true) :
    pyStrip l = [] := by
  unfold pyStrip
  rw [List.dropWhile_eq_nil_iff.mpr h]
  rfl

/-- A query that strips to the empty string matches every track, in
registry order. -/
theorem applyFilter_nil_strip (query : List Char) (tracks : List Track)
    (h : pyStrip query = []) :
    applyFilter query tracks = List.range tracks.length := by
  unfold applyFilter
  dsimp only
  rw [h]
  simp only [List.map_nil]
  have hall : ∀ l : List (Nat × Track),
      (l.filterMap fun it =>
        if True ∨ isSubOf [] (filterHay it.2) = true then some it.1 else none) =
        l.map Prod.fst := by
    intro l
    induction l with
    | nil => rfl
    | cons x xs ih => simpa using ih
  rw [hall, List.enum_map_fst]

/-- C10: a whitespace-only query behaves as the empty query.  The filter
strips the query, so both return every registry index in original
order. -/
theorem whitespace_query_filter (query : List Char) (tracks : List Track)
    (h : ∀ c ∈ query, pyIsSpace c = true) :
    applyFilter query tracks = List.range tracks.length ∧
      applyFilter query tracks = applyFilter [] tracks := by
  have h1 := applyFilter_nil_strip query tracks (pyStrip_eq_nil query h)
  have h2 := applyFilter_nil_strip [] tracks rfl
  exact ⟨h1, h1.trans h2.symm⟩

/-- Witness for whitespace_query_filter on a space-and-tab query over a
one-track registry. -/
theorem whitespace_query_filter_witness :
    applyFilter [' ', '\t'] [⟨"a.mp3", "Song", "Artist", "Album", -1⟩] =
        List.range 1 ∧
      applyFilter [' ', '\t'] [⟨"a.mp3", "Song", "Artist", "Album", -1⟩] =
        applyFilter [] [⟨"a.mp3", "Song", "Artist", "Album", -1⟩] :=
  whitespace_query_filter [' ', '\t'] [⟨"a.mp3", "Song", "Artist", "Album", -1⟩] (by decide)

/-- _rebuild_play_order changes only play_order and play_pos; every other
field is preserved. -/
theorem rebuild_fields (g : Nat → Nat) (keep : Bool) (s : PlayerState) :
    (rebuild g keep s).tracks = s.tracks ∧
    (rebuild g keep s).visible_indices = s.visible_indices ∧
    (rebuild g keep s).history = s.history ∧
    (rebuild g keep s).repeat_one = s.repeat_one ∧
    (rebuild g keep s).repeat_all = s.repeat_all ∧
    (rebuild g keep s).shuffle = s.shuffle := by
  unfold rebuild
  dsimp only
  set b := if s.shuffle then pyShuffle g s.visible_indices else s.visible_indices with hb
  split
  · exact ⟨rfl, rfl, rfl, rfl, rfl, rfl⟩
  · split
    · exact ⟨rfl, rfl, rfl, rfl, rfl, rfl⟩
    · exact ⟨rfl, rfl, rfl, rfl, rfl, rfl⟩

/-- After _rebuild_play_order the cursor is -1 only when the new play
order is empty. -/
theorem rebuild_pos_neg (g : Nat → Nat) (keep : Bool) (s : PlayerState)
    (h : (rebuild g keep s).play_pos = -1) : (rebuild g keep s).play_order = [] := by
  revert h
  unfold rebuild
  dsimp only
  set b := if s.shuffle then pyShuffle g s.visible_indices else s.visible_indices with hb
  split
  · rename_i hbe
    intro _
    exact hbe
  · split
    · intro h
      dsimp only at h
      exfalso
      omega
    · intro h
      dsimp only at h
      exfalso
      omega

/-- After _rebuild_play_order an in-range cursor always sits on the FIRST
occurrence of its entry: list.index returns the first hit, so re-indexing
the entry under the cursor gives the cursor back. -/
theorem rebuild_first_occ (g : Nat → Nat) (keep : Bool) (s : PlayerState)
    (hp0 : 0 ≤ (rebuild g keep s).play_pos)
    (hlt : (rebuild g keep s).play_pos < ((rebuild g keep s).play_order.length : Int)) :
    ((rebuild g keep s).play_order.indexOf
        ((rebuild g keep s).play_order.getD (rebuild g keep s).play_pos.toNat 0) : Int) =
      (rebuild g keep s).play_pos := by
  revert hp0 hlt
  unfold rebuild
  dsimp only
  set b := if s.shuffle then pyShuffle g s.visible_indices else s.visible_indices with hb
  split
  · intro hp0 hlt
    dsimp only at *
    exfalso
    omega
  · split
    · rename_i hbe hkeep
      intro hp0 hlt
      dsimp only at *
      have hmem := hkeep.2.2
      have hidx := List.indexOf_lt_length.mpr hmem
      have htn : ((List.indexOf (currentTrackIndex s).toNat b : Int)).toNat
          = List.indexOf (currentTrackIndex s).toNat b := by
        omega
      rw [htn, List.getD_eq_getElem _ _ hidx, List.getElem_indexOf hidx]
    · rename_i hbe hkeep
      intro hp0 hlt
      dsimp only at *
      rcases hv : b with _ | ⟨a, t⟩
      · exact absurd hv hbe
      · simp [List.indexOf_cons_self]

/-- Updating play_order and play_pos with their own current values is the
identity. -/
theorem update_self (s : PlayerState) (v : List Nat) (p : Int)
    (hv : s.play_order = v) (hp : s.play_pos = p) :
    ({ s with play_order := v, play_pos := p } : PlayerState) = s := by
  subst hv
  subst hp
  rfl

/-- _current_track_index returns -1 on the out-of-range guard. -/
theorem currentTrackIndex_neg (s : PlayerState)
    (h : s.play_pos < 0 ∨ (s.play_order.length : Int) ≤ s.play_pos) :
    currentTrackIndex s = -1 := by
  unfold currentTrackIndex
  rw [if_pos h]

/-- _current_track_index returns the entry under an in-range cursor. -/
theorem currentTrackIndex_pos (s : PlayerState)
    (h1 : 0 ≤ s.play_pos) (h2 : s.play_pos < (s.play_order.length : Int)) :
    currentTrackIndex s = (s.play_order.getD s.play_pos.toNat 0 : Int) := by
  unfold currentTrackIndex
  rw [if_neg (by omega)]

/-- When _current_track_index is not -1, the cursor was in range. -/
theorem currentTrackIndex_ne_neg_one (s : PlayerState) (h : currentTrackIndex s ≠ -1) :
    0 ≤ s.play_pos ∧ s.play_pos < (s.play_order.length : Int) := by
  by_contra hc
  exact h (currentTrackIndex_neg s (by omega))

/-- With shuffle off, rebuild(keep_current=true) is the identity on any
state that itself arose from a rebuild (play order equal to the filter
view, cursor in range and on a first occurrence). -/
theorem rebuild_keep_idem_general (g : Nat → Nat) (s : PlayerState)
    (hpo : s.play_order = s.visible_indices)
    (hsh : s.shuffle = false)
    (hinv : CursorInv s)
    (hneg : s.play_pos = -1 → s.play_order = [])
    (hfo : 0 ≤ s.play_pos → s.play_pos < (s.play_order.length : Int) →
      (s.play_order.indexOf (s.play_order.getD s.play_pos.toNat 0) : Int) = s.play_pos) :
    rebuild g true s = s := by
  obtain ⟨h1, h2, h3⟩ := hinv
  unfold rebuild
  dsimp only
  have hb : (if s.shuffle then pyShuffle g s.visible_indices else s.visible_indices)
      = s.play_order := by
    rw [hsh, hpo]
    simp
  rw [hb]
  split
  · rename_i hord
    exact update_self s s.play_order (-1) rfl (h3 (by rw [hord]; rfl))
  · split
    · rename_i hord hkeep
      obtain ⟨-, hne, hmem⟩ := hkeep
      obtain ⟨hp0, hplt⟩ := currentTrackIndex_ne_neg_one s hne
      have hcur := currentTrackIndex_pos s hp0 hplt
      have hc : (currentTrackIndex s).toNat = s.play_order.getD s.play_pos.toNat 0 := by
        rw [hcur]
        omega
      refine update_self s s.play_order _ rfl ?_
      rw [hc]
      exact (hfo hp0 hplt).symm
    · rename_i hord hkeep
      exfalso
      have hpne : s.play_pos ≠ -1 := fun hp => hord (hneg hp)
      have hp0 : 0 ≤ s.play_pos := by omega
      have hcur := currentTrackIndex_pos s hp0 h2
      have hlt2 : s.play_pos.toNat < s.play_order.length := by omega
      have hmem : s.play_order.getD s.play_pos.toNat 0 ∈ s.play_order := by
        rw [List.getD_eq_getElem _ _ hlt2]
        exact List.getElem_mem hlt2
      have hc : (currentTrackIndex s).toNat = s.play_order.getD s.play_pos.toNat 0 := by
        rw [hcur]
        omega
      refine hkeep ⟨rfl, ?_, ?_⟩
      · rw [hcur]
        omega
      · rw [hc]
        exact hmem

/-- With shuffle off, two consecutive rebuild(keep_current=true) calls
leave exactly the state of the first. -/
theorem rebuild_no_shuffle_idem (gA gB : Nat → Nat) (s : PlayerState)
    (hsh : s.shuffle = false) :
    rebuild gB true (rebuild gA true s) = rebuild gA true s := by
  have hflds := rebuild_fields gA true s
  apply rebuild_keep_idem_general
  · rw [rebuild_play_order_eq, hflds.2.1, hsh]
    simp
  · rw [hflds.2.2.2.2.2]
    exact hsh
  · exact rebuild_cursor_inv gA true s
  · exact rebuild_pos_neg gA true s
  · exact rebuild_first_occ gA true s

/-- rebuild(keep_current=true) preserves the current registry index on any
state whose play order is a permutation of its filter view with a
synchronised cursor - in particular on any state just produced by a
rebuild, shuffle on or off. -/
theorem currentTrackIndex_rebuild_keep (g : Nat → Nat) (s : PlayerState)
    (hperm : s.play_order.Perm s.visible_indices)
    (hinv : CursorInv s)
    (hneg : s.play_pos = -1 → s.play_order = []) :
    currentTrackIndex (rebuild g true s) = currentTrackIndex s := by
  obtain ⟨h1, h2, h3⟩ := hinv
  by_cases hp : s.play_pos = -1
  · have ho := hneg hp
    have hv : s.visible_indices = [] := by
      have hperm2 := hperm
      rw [ho] at hperm2
      exact hperm2.symm.eq_nil
    have hcur : currentTrackIndex s = -1 := currentTrackIndex_neg s (by omega)
    rw [hcur]
    have hb : (if s.shuffle then pyShuffle g s.visible_indices else s.visible_indices)
        = ([] : List Nat) := by
      rw [hv]
      split <;> rfl
    unfold rebuild
    dsimp only
    rw [hb, if_pos rfl]
    exact currentTrackIndex_neg _ (Or.inl (by dsimp only; decide))
  · have hp0 : 0 ≤ s.play_pos := by omega
    have hlt2 : s.play_pos.toNat < s.play_order.length := by omega
    have hcur := currentTrackIndex_pos s hp0 h2
    have hmem : s.play_order.getD s.play_pos.toNat 0 ∈ s.play_order := by
      rw [List.getD_eq_getElem _ _ hlt2]
      exact List.getElem_mem hlt2
    have hbperm : (if s.shuffle then pyShuffle g s.visible_indices
        else s.visible_indices).Perm s.visible_indices := by
      split
      · exact pyShuffle_perm g s.visible_indices
      · exact List.Perm.refl _
    have hmemb : s.play_order.getD s.play_pos.toNat 0 ∈
        (if s.shuffle then pyShuffle g s.visible_indices else s.visible_indices) :=
      hbperm.mem_iff.mpr (hperm.mem_iff.mp hmem)
    have hbne : (if s.shuffle then pyShuffle g s.visible_indices
        else s.visible_indices) ≠ [] := List.ne_nil_of_mem hmemb
    have hc : (currentTrackIndex s).toNat = s.play_order.getD s.play_pos.toNat 0 := by
      rw [hcur]
      omega
    have hib := List.indexOf_lt_length.mpr hmemb
    unfold rebuild
    dsimp only
    rw [if_neg hbne, if_pos ⟨rfl, by rw [hcur]; omega, by rw [hc]; exact hmemb⟩]
    rw [hc]
    rw [currentTrackIndex_pos _ (by dsimp only; omega)
      (by dsimp only; exact_mod_cast hib)]
    dsimp only
    have htn : ((List.indexOf (s.play_order.getD s.play_pos.toNat 0)
        (if s.shuffle then pyShuffle g s.visible_indices else s.visible_indices) : Int)).toNat
        = List.indexOf (s.play_order.getD s.play_pos.toNat 0)
          (if s.shuffle then pyShuffle g s.visible_indices else s.visible_indices) := by
      omega
    rw [htn, List.getD_eq_getElem _ _ hib, List.getElem_indexOf hib, hcur]

/-- C8 (amended): calling _rebuild_play_order(keep_current=true) twice in
succession with no intervening state change is idempotent when shuffle is
off (the second call leaves the whole state, hence the cursor, unchanged);
when shuffle is on, the second call preserves the current registry index
(play_order[play_pos]) but may relocate the cursor offset, because each
call draws a fresh random permutation.  (See the counterexample
rebuild_keep_twice_shuffle_moves_cursor.) -/
theorem rebuild_keep_twice (gA gB : Nat → Nat) (s : PlayerState) :
    (s.shuffle = false → rebuild gB true (rebuild gA true s) = rebuild gA true s) ∧
      currentTrackIndex (rebuild gB true (rebuild gA true s)) =
        currentTrackIndex (rebuild gA true s) := by
  constructor
  · intro hsh
    exact rebuild_no_shuffle_idem gA gB s hsh
  · apply currentTrackIndex_rebuild_keep
    · rw [(rebuild_fields gA true s).2.1]
      exact rebuild_play_order_perm_core gA true s
    · exact rebuild_cursor_inv gA true s
    · exact rebuild_pos_neg gA true s

/-- Witness for rebuild_keep_twice at a concrete no-shuffle state. -/
theorem rebuild_keep_twice_witness :
    rebuild (fun _ => 1) true (rebuild (fun _ => 0) true prevW) =
        rebuild (fun _ => 0) true prevW ∧
      currentTrackIndex (rebuild (fun _ => 1) true (rebuild (fun _ => 0) true prevW)) =
        currentTrackIndex (rebuild (fun _ => 0) true prevW) :=
  ⟨(rebuild_keep_twice (fun _ => 0) (fun _ => 1) prevW).1 rfl,
    (rebuild_keep_twice (fun _ => 0) (fun _ => 1) prevW).2⟩

/-- C8 counterexample: with shuffle on, two successive
rebuild(keep_current=true) calls with different random draws leave the
cursor at offset 1 after the first call but offset 0 after the second, so
the cursor position is not the same both times. -/
theorem rebuild_keep_twice_shuffle_moves_cursor :
    c8C.shuffle = true ∧
      (rebuild (fun _ => 0) true c8C).play_pos = 1 ∧
      (rebuild (fun _ => 1) true (rebuild (fun _ => 0) true c8C)).play_pos = 0 := by
  decide

/-- C6 (amended): in the full variant, _add_paths preserves the
no-duplicate-paths invariant of the Track Registry for every import
sequence: an import whose path already appears is skipped, never
appended.  (The slick variant's _add has no duplicate check: see the
counterexample slickAdd_duplicate.) -/
theorem addPaths_nodup (ex : String → Bool) (md : String → String × String × String × Int)
    (paths : List String) (tracks : List Track)
    (h : (tracks.map Track.path).Nodup) :
    ((addPaths ex md tracks paths).map Track.path).Nodup := by
  induction paths generalizing tracks with
  | nil => exact h
  | cons p rest ih =>
      unfold addPaths
      split
      · exact ih tracks h
      · split
        · exact ih tracks h
        · rename_i hex hany
          apply ih
          rw [List.map_append]
          refine List.nodup_append.mpr ⟨h, List.nodup_singleton _, ?_⟩
          intro a ha hb
          simp only [mkTrack, List.map_cons, List.map_nil, List.mem_singleton] at hb
          subst hb
          simp only [List.mem_map] at ha
          obtain ⟨t, ht, hp⟩ := ha
          apply hany
          rw [List.any_eq_true]
          exact ⟨t, ht, by simp [hp]⟩

/-- Witness for addPaths_nodup: importing a duplicated path list into an
empty registry still yields distinct stored paths. -/
theorem addPaths_nodup_witness :
    (([] : List Track).map Track.path).Nodup ∧
      ((addPaths exTrue (fun _ => ("t", "", "", -1)) []
          ["a.mp3", "a.mp3", "b.mp3"]).map Track.path).Nodup :=
  ⟨by decide, addPaths_nodup exTrue (fun _ => ("t", "", "", -1))
      ["a.mp3", "a.mp3", "b.mp3"] [] (by decide)⟩

/-- C6 counterexample: in the slick variant, importing the same path
twice appends two registry entries with equal (hence equal-normalized)
paths, so the duplicate-rejection claim is false on the slick variant. -/
theorem slickAdd_duplicate :
    ((slickAdd mdOk (slickAdd mdOk [] "a.mp3") "a.mp3").map Track.path)
        = ["a.mp3", "a.mp3"] ∧
      ¬ ((slickAdd mdOk (slickAdd mdOk [] "a.mp3") "a.mp3").map Track.path).Nodup := by
  decide

/-- Loading back a saved record of a track with a non-empty existing path
reproduces the track field-for-field. -/
theorem loadRecord_saveRecord (ex : String → Bool) (t : Track)
    (h1 : t.path ≠ "") (h2 : ex t.path = true) :
    loadRecord ex (saveRecord t) = some t := by
  unfold loadRecord saveRecord
  dsimp only [Option.getD_some]
  rw [if_neg h1, if_neg (by simp [h2])]

/-- Loading back a saved registry whose paths are non-empty and all exist
reproduces the registry. -/
theorem loadTracks_save (ex : String → Bool) (tracks : List Track)
    (h : ∀ t ∈ tracks, t.path ≠ "" ∧ ex t.path = true) :
    (tracks.map saveRecord).filterMap (loadRecord ex) = tracks := by
  induction tracks with
  | nil => rfl
  | cons t rest ih =>
      have ht := h t (by simp)
      have hrec := loadRecord_saveRecord ex t ht.1 ht.2
      simp only [List.map_cons, List.filterMap_cons, hrec]
      rw [ih (fun x hx => h x (by simp [hx]))]

/-- C7 (amended): for every NON-EMPTY Track Registry whose tracks all
have NON-EMPTY paths that still exist on the filesystem, save_playlist
produces a document and load_playlist reproduces the registry
field-for-field in the same order.  (The claim as stated omits the
non-empty-path condition: see the counterexample
save_load_empty_path_drops.) -/
theorem save_load_roundtrip (ex : String → Bool) (savedAt : Int) (tracks : List Track)
    (hne : tracks ≠ []) (h : ∀ t ∈ tracks, t.path ≠ "" ∧ ex t.path = true) :
    ∃ pl, savePlaylist savedAt tracks = some pl ∧ loadTracks ex pl = tracks ∧
      ∀ current, loadPlaylist ex pl current = tracks := by
  have hl : loadTracks ex (savePayload savedAt tracks) = tracks :=
    loadTracks_save ex tracks h
  refine ⟨savePayload savedAt tracks, by simp [savePlaylist, hne], hl, ?_⟩
  intro current
  unfold loadPlaylist
  simp [hl, hne]

/-- Witness for save_load_roundtrip at a concrete one-track registry. -/
theorem save_load_roundtrip_witness :
    ∃ pl, savePlaylist 5 [⟨"w.mp3", "Song", "Artist", "Album", 1234⟩] = some pl ∧
      loadTracks exTrue pl = [⟨"w.mp3", "Song", "Artist", "Album", 1234⟩] ∧
      ∀ current, loadPlaylist exTrue pl current =
        [⟨"w.mp3", "Song", "Artist", "Album", 1234⟩] :=
  save_load_roundtrip exTrue 5 [⟨"w.mp3", "Song", "Artist", "Album", 1234⟩]
    (by decide) (by decide)

/-- C7 counterexample: a registry holding a track with an empty path is
not reproduced by the round trip even on a filesystem where every path
query answers true (Python's Path("") normalizes to "." which exists):
load_playlist's `if not p` check drops the entry before the existence
test, so the loaded list is empty, not the original registry. -/
theorem save_load_empty_path_drops :
    (∀ t ∈ [emptyPathTrack], exTrue t.path = true) ∧
      savePlaylist 0 [emptyPathTrack] = some (savePayload 0 [emptyPathTrack]) ∧
      loadTracks exTrue (savePayload 0 [emptyPathTrack]) = [] ∧
      ([] : List Track) ≠ [emptyPathTrack] := by
  decide
